import Mathlib

/-!
Verification of the cure-8 virtual machine (a CHIP-8 style emulator).

The development shallowly embeds the two source components:
* the instruction decoder (`src/instruction.rs`): a pure view over a 16-bit
  word, here a `Nat` (always < 65536 at use sites);
* the execution engine (`src/machine.rs`): machine state plus the
  fetch-decode-execute cycle.

Machine integers are embedded as `Nat` with wrapping written as explicit
`% 256` / `% 65536` where the source wraps, and Rust panics (out-of-bounds
array indexing, debug-mode integer overflow/underflow) appear as `Option`
`none` / `Except.error` results, since a panic aborts the run.
-/

namespace Cure8

/-! ### Instruction decoder (src/instruction.rs)

`Instruction(pub u16)` is a transparent 16-bit word; each accessor is a
mask-and-shift, written here with the same bitwise operators. -/

namespace Instruction

/-- Accessor opcode: `self.0 >> 12`. -/
def opcode (w : Nat) : Nat := w >>> 12

/-- Accessor nnn: `self.0 & 0x0fff`. -/
def nnn (w : Nat) : Nat := w &&& 0x0fff

/-- Accessor x: `((self.0 & 0x0f00) >> 8) as u8`. -/
def x (w : Nat) : Nat := (w &&& 0x0f00) >>> 8

/-- Accessor y: `((self.0 & 0x00f0) >> 4) as u8`. -/
def y (w : Nat) : Nat := (w &&& 0x00f0) >>> 4

/-- Accessor kk: `(self.0 & 0x00ff) as u8`. -/
def kk (w : Nat) : Nat := w &&& 0x00ff

/-- Accessor n: `(self.0 & 0x000f) as u8`. -/
def n (w : Nat) : Nat := w &&& 0x000f

/-- Serialization: `[(self.0 >> 8) as u8, (self.0 & 0xff) as u8]`. -/
def as_bytes (w : Nat) : Nat × Nat := (w >>> 8, w &&& 0xff)

/-- Construction: `Instruction(((bytes[0] as u16) << 8) | bytes[1] as u16)`. -/
def from_bytes (b0 b1 : Nat) : Nat := (b0 <<< 8) ||| b1

end Instruction

/-! Arithmetic characterizations of the bitwise field accessors. -/

lemma and_shiftLeft_mask_shiftRight (w k m : Nat) :
    (w &&& ((2 ^ m - 1) <<< k)) >>> k = (w >>> k) % 2 ^ m := by
  apply Nat.eq_of_testBit_eq
  intro j
  rw [Nat.testBit_shiftRight, Nat.testBit_and, Nat.testBit_mod_two_pow,
    Nat.testBit_shiftRight, Nat.testBit_shiftLeft, Nat.testBit_two_pow_sub_one]
  rcases Nat.lt_or_ge j m with h | h
  · simp [h, Nat.add_sub_cancel_left]
  · simp [h, Nat.not_lt.2 h]

lemma shiftLeft_or_eq (b0 b1 : Nat) (h1 : b1 < 256) :
    (b0 <<< 8) ||| b1 = 256 * b0 + b1 := by
  apply Nat.eq_of_testBit_eq
  intro j
  have h256 : (256 : Nat) * b0 + b1 = 2 ^ 8 * b0 + b1 := by norm_num
  rw [Nat.testBit_lor, Nat.testBit_shiftLeft, h256,
    Nat.testBit_mul_pow_two_add b0 (lt_of_lt_of_le h1 (by norm_num)) j]
  rcases Nat.lt_or_ge j 8 with h | h
  · simp [h, Nat.not_le.2 h]
  · have hb1 : b1.testBit j = false := by
      apply Nat.testBit_lt_two_pow
      have h2 : (256 : Nat) ≤ 2 ^ j := by
        calc (256 : Nat) = 2 ^ 8 := by norm_num
          _ ≤ 2 ^ j := Nat.pow_le_pow_right (by norm_num) h
      omega
    simp [h, Nat.not_lt.2 h, hb1]

lemma opcode_eq_div (w : Nat) : Instruction.opcode w = w / 4096 := by
  rw [Instruction.opcode, Nat.shiftRight_eq_div_pow]

lemma nnn_eq_mod (w : Nat) : Instruction.nnn w = w % 4096 := by
  have h := Nat.and_pow_two_sub_one_eq_mod w 12
  norm_num at h
  exact h

lemma x_eq_div_mod (w : Nat) : Instruction.x w = w / 256 % 16 := by
  have h : (w &&& 3840) >>> 8 = (w >>> 8) % 16 := and_shiftLeft_mask_shiftRight w 8 4
  rw [Instruction.x, h, Nat.shiftRight_eq_div_pow]

lemma y_eq_div_mod (w : Nat) : Instruction.y w = w / 16 % 16 := by
  have h : (w &&& 240) >>> 4 = (w >>> 4) % 16 := and_shiftLeft_mask_shiftRight w 4 4
  rw [Instruction.y, h, Nat.shiftRight_eq_div_pow]

lemma kk_eq_mod (w : Nat) : Instruction.kk w = w % 256 := by
  have h := Nat.and_pow_two_sub_one_eq_mod w 8
  norm_num at h
  exact h

lemma n_eq_mod (w : Nat) : Instruction.n w = w % 16 := by
  have h := Nat.and_pow_two_sub_one_eq_mod w 4
  norm_num at h
  exact h

lemma from_bytes_eq (b0 b1 : Nat) (h1 : b1 < 256) :
    Instruction.from_bytes b0 b1 = 256 * b0 + b1 :=
  shiftLeft_or_eq b0 b1 h1

/-- C1: the decoder's accessors extract the fixed bit-fields
(`opcode = w >> 12`, `nnn = w & 0x0fff`, `x` = bits 8-11, `y` = bits 4-7,
`kk` = low 8 bits, `n` = low 4 bits), reassembling the extracted fields
reconstructs `w` exactly, and serializing to two big-endian bytes then
reconstructing yields the original word, and symmetrically for any byte
pair. -/
theorem decode_fields_and_byte_roundtrip (w b0 b1 : Nat)
    (hw : w < 65536) (h0 : b0 < 256) (h1 : b1 < 256) :
    Instruction.opcode w = w / 4096 ∧
    Instruction.nnn w = w % 4096 ∧
    Instruction.x w = w / 256 % 16 ∧
    Instruction.y w = w / 16 % 16 ∧
    Instruction.kk w = w % 256 ∧
    Instruction.n w = w % 16 ∧
    Instruction.opcode w * 4096 + Instruction.nnn w = w ∧
    Instruction.opcode w * 4096 + Instruction.x w * 256 +
      Instruction.y w * 16 + Instruction.n w = w ∧
    Instruction.opcode w * 4096 + Instruction.x w * 256 + Instruction.kk w = w ∧
    Instruction.from_bytes (Instruction.as_bytes w).1 (Instruction.as_bytes w).2 = w ∧
    (Instruction.as_bytes (Instruction.from_bytes b0 b1)).1 = b0 ∧
    (Instruction.as_bytes (Instruction.from_bytes b0 b1)).2 = b1 := by
  have hb : (Instruction.as_bytes w).1 = w / 256 ∧ (Instruction.as_bytes w).2 = w % 256 := by
    constructor
    · show w >>> 8 = w / 256
      rw [Nat.shiftRight_eq_div_pow]
    · show w &&& 0xff = w % 256
      have h := Nat.and_pow_two_sub_one_eq_mod w 8
      norm_num at h
      exact h
  have hfb : Instruction.from_bytes b0 b1 = 256 * b0 + b1 := from_bytes_eq b0 b1 h1
  have hab1 : (Instruction.as_bytes (Instruction.from_bytes b0 b1)).1 = b0 := by
    show Instruction.from_bytes b0 b1 >>> 8 = b0
    rw [hfb, Nat.shiftRight_eq_div_pow]
    norm_num
    omega
  have hab2 : (Instruction.as_bytes (Instruction.from_bytes b0 b1)).2 = b1 := by
    show Instruction.from_bytes b0 b1 &&& 0xff = b1
    have h := Nat.and_pow_two_sub_one_eq_mod (Instruction.from_bytes b0 b1) 8
    norm_num at h
    rw [h, hfb]
    omega
  refine ⟨opcode_eq_div w, nnn_eq_mod w, x_eq_div_mod w, y_eq_div_mod w,
    kk_eq_mod w, n_eq_mod w, ?_, ?_, ?_, ?_, hab1, hab2⟩
  · rw [opcode_eq_div, nnn_eq_mod]; omega
  · rw [opcode_eq_div, x_eq_div_mod, y_eq_div_mod, n_eq_mod]; omega
  · rw [opcode_eq_div, x_eq_div_mod, kk_eq_mod]; omega
  · rw [hb.1, hb.2, from_bytes_eq _ _ (by omega)]; omega

/-- Witness for C1 at `w = 0xABCD`, `b0 = 0x12`, `b1 = 0x34`. -/
theorem decode_fields_and_byte_roundtrip_witness :
    Instruction.opcode 0xABCD = 0xABCD / 4096 ∧
    Instruction.nnn 0xABCD = 0xABCD % 4096 ∧
    Instruction.x 0xABCD = 0xABCD / 256 % 16 ∧
    Instruction.y 0xABCD = 0xABCD / 16 % 16 ∧
    Instruction.kk 0xABCD = 0xABCD % 256 ∧
    Instruction.n 0xABCD = 0xABCD % 16 ∧
    Instruction.opcode 0xABCD * 4096 + Instruction.nnn 0xABCD = 0xABCD ∧
    Instruction.opcode 0xABCD * 4096 + Instruction.x 0xABCD * 256 +
      Instruction.y 0xABCD * 16 + Instruction.n 0xABCD = 0xABCD ∧
    Instruction.opcode 0xABCD * 4096 + Instruction.x 0xABCD * 256 +
      Instruction.kk 0xABCD = 0xABCD ∧
    Instruction.from_bytes (Instruction.as_bytes 0xABCD).1
      (Instruction.as_bytes 0xABCD).2 = 0xABCD ∧
    (Instruction.as_bytes (Instruction.from_bytes 0x12 0x34)).1 = 0x12 ∧
    (Instruction.as_bytes (Instruction.from_bytes 0x12 0x34)).2 = 0x34 :=
  decode_fields_and_byte_roundtrip 0xABCD 0x12 0x34 (by decide) (by decide) (by decide)

/-! ### Execution engine (src/machine.rs)

Machine state.  `mem` embeds `[u8; 4096]` (meaningful indices < 4096,
byte values), `regs` embeds `[u8; 16]`, `stack` embeds `[u16; 16]`; each
is a total function, and every source indexing site whose index is not
statically below the array length carries an explicit bounds guard whose
failure models the Rust panic.  Register indexing sites never need a
guard: the decoder only produces 4-bit register indices. -/

/-- Point update of an array embedded as a function: `arr[a] = v`. -/
def upd (f : Nat → Nat) (a v : Nat) : Nat → Nat :=
  fun j => if j = a then v else f j

@[simp] lemma upd_same (f : Nat → Nat) (a v : Nat) : upd f a v a = v := by
  simp [upd]

lemma upd_other (f : Nat → Nat) (a v j : Nat) (h : j ≠ a) : upd f a v j = f j := by
  simp [upd, h]

lemma upd_upd_same (f : Nat → Nat) (a v w : Nat) : upd (upd f a v) a w = upd f a w := by
  funext j
  by_cases h : j = a <;> simp [upd, h]

@[ext] structure Machine where
  mem : Nat → Nat
  regs : Nat → Nat
  i : Nat
  pc : Nat
  sp : Nat
  stack : Nat → Nat

namespace Machine

/-- Constructor `Machine::new()`: all state zero-initialized except `pc = 512`. -/
def new : Machine :=
  { mem := fun _ => 0, regs := fun _ => 0, i := 0, pc := 512, sp := 0,
    stack := fun _ => 0 }

/-- Opcode 0x0000 return: `pc = stack[sp]; sp -= 1`.  `none` models the panic on
`stack[sp]` with `sp >= 16` or on the `u8` underflow of `sp -= 1`. -/
def ret (m : Machine) : Option Machine :=
  if m.sp < 16 then
    if m.sp = 0 then none
    else some { m with pc := m.stack m.sp, sp := m.sp - 1 }
  else none

/-- Opcode 0x1nnn jump: `pc = addr`. -/
def jmp (m : Machine) (addr : Nat) : Machine :=
  { m with pc := addr }

/-- Opcode 0x2nnn call: `sp += 1; stack[sp] = pc; pc = addr`.  `none` models the
`u8` overflow of `sp += 1` or the panic on `stack[sp]` with `sp >= 16`. -/
def call (m : Machine) (addr : Nat) : Option Machine :=
  if m.sp + 1 < 256 then
    if m.sp + 1 < 16 then
      some { m with
        sp := m.sp + 1,
        stack := upd m.stack (m.sp + 1) m.pc,
        pc := addr }
    else none
  else none

/-- Opcode 0x3xkk: skip next instruction if `regs[x] == kk`. -/
def eq (m : Machine) (x byte : Nat) : Machine :=
  if m.regs x = byte then { m with pc := m.pc + 2 } else m

/-- Opcode 0x4xkk: skip next instruction if `regs[x] != kk`. -/
def neq (m : Machine) (x byte : Nat) : Machine :=
  if m.regs x ≠ byte then { m with pc := m.pc + 2 } else m

/-- Opcode 0x5xy0: skip next instruction if `regs[x] == regs[y]`. -/
def eq_xy (m : Machine) (x y : Nat) : Machine :=
  if m.regs x = m.regs y then { m with pc := m.pc + 2 } else m

/-- Opcode 0x6xkk: `regs[x] = kk`. -/
def ld (m : Machine) (x byte : Nat) : Machine :=
  { m with regs := upd m.regs x byte }

/-- Opcode 0x7xkk: `regs[x] = regs[x].wrapping_add(kk)`. -/
def add (m : Machine) (x byte : Nat) : Machine :=
  { m with regs := upd m.regs x ((m.regs x + byte) % 256) }

/-- Opcode 0x8xy0: `regs[x] = regs[y]`. -/
def ld_xy (m : Machine) (x y : Nat) : Machine :=
  { m with regs := upd m.regs x (m.regs y) }

/-- Opcode 0x8xy1: `regs[x] |= regs[y]`. -/
def or (m : Machine) (x y : Nat) : Machine :=
  { m with regs := upd m.regs x (m.regs x ||| m.regs y) }

/-- Opcode 0x8xy2: `regs[x] &= regs[y]`. -/
def and (m : Machine) (x y : Nat) : Machine :=
  { m with regs := upd m.regs x (m.regs x &&& m.regs y) }

/-- Opcode 0x8xy3: `regs[x] ^= regs[y]`. -/
def xor (m : Machine) (x y : Nat) : Machine :=
  { m with regs := upd m.regs x (m.regs x ^^^ m.regs y) }

/-- Opcode 0x8xy4: `let (res, overflow) = regs[x].overflowing_add(regs[y]);
regs[x] = res; regs[0xF] = overflow as u8`.  Note the result is written
before the flag. -/
def add_xy (m : Machine) (x y : Nat) : Machine :=
  let res := (m.regs x + m.regs y) % 256
  let flag := if 256 ≤ m.regs x + m.regs y then 1 else 0
  { m with regs := upd (upd m.regs x res) 0xF flag }

/-- Opcode 0x8xy5: `let (res, overflow) = regs[x].overflowing_sub(regs[y]);
regs[x] = res; regs[0xF] = !overflow as u8` (wrapping subtraction;
`overflow` is the borrow `regs[x] < regs[y]`). -/
def sub_xy (m : Machine) (x y : Nat) : Machine :=
  let res := (m.regs x + 256 - m.regs y) % 256
  let flag := if m.regs x < m.regs y then 0 else 1
  { m with regs := upd (upd m.regs x res) 0xF flag }

/-- Opcode 0x8xy6: `regs[0xF] = regs[x] & 0x1; regs[x] >>= 1`.  Note the flag is
written first, and the shift then reads `regs[x]` again. -/
def shr (m : Machine) (x : Nat) : Machine :=
  let m1 := { m with regs := upd m.regs 0xF (m.regs x % 2) }
  { m1 with regs := upd m1.regs x (m1.regs x / 2) }

/-- Opcode 0x8xy7: `let (res, overflow) = regs[y].overflowing_sub(regs[x]);
regs[x] = res; regs[0xF] = !overflow as u8`. -/
def subn_xy (m : Machine) (x y : Nat) : Machine :=
  let res := (m.regs y + 256 - m.regs x) % 256
  let flag := if m.regs y < m.regs x then 0 else 1
  { m with regs := upd (upd m.regs x res) 0xF flag }

/-- Opcode 0x8xyE: `regs[0xF] = regs[x] >> 7; regs[x] <<= 1` (the `u8` shift
discards the top bit).  The flag is written first, and the shift then
reads `regs[x]` again. -/
def shl (m : Machine) (x : Nat) : Machine :=
  let m1 := { m with regs := upd m.regs 0xF (m.regs x / 128) }
  { m1 with regs := upd m1.regs x (m1.regs x * 2 % 256) }

/-- Opcode 0x9xy0: skip next instruction if `regs[x] != regs[y]`. -/
def neq_xy (m : Machine) (x y : Nat) : Machine :=
  if m.regs x ≠ m.regs y then { m with pc := m.pc + 2 } else m

/-- Opcode 0xAnnn: `i = addr`. -/
def ld_i (m : Machine) (addr : Nat) : Machine :=
  { m with i := addr }

/-- Opcode 0xBnnn: `pc = addr + regs[0] as u16`. -/
def jmp_v0 (m : Machine) (addr : Nat) : Machine :=
  { m with pc := addr + m.regs 0 }

/-- Opcode 0xCx00: `i += regs[x] as u16`.  `none` models the `u16` overflow. -/
def add_i (m : Machine) (x : Nat) : Option Machine :=
  if m.i + m.regs x < 65536 then some { m with i := m.i + m.regs x } else none

/-- Opcode 0xDx00 bcd: `let mut val = regs[x]; for i in (0..3).rev()
{ mem[self.i + i] = val % 10; val /= 10 }`, i.e. the loop writes
`mem[i+2] = val % 10`, `mem[i+1] = val/10 % 10`, `mem[i] = val/10/10 % 10`.
`none` models the panic when an address reaches 4096 (or the `u16` index
arithmetic overflows, which implies the same bound fails). -/
def bcd (m : Machine) (x : Nat) : Option Machine :=
  let val := m.regs x
  if h : m.i + 2 < 4096 then
    some { m with
      mem :=
        upd (upd (upd m.mem (m.i + 2) (val % 10)) (m.i + 1) (val / 10 % 10))
          m.i (val / 10 / 10 % 10) }
  else none

/-- Opcode 0xEx00: `for i in 0..x+1 { mem[self.i + i] = regs[i] }`.
`none` models the panic when an address reaches 4096. -/
def ld_0x (m : Machine) (x : Nat) : Option Machine :=
  if m.i + x < 4096 then
    some { m with
      mem := fun a =>
        if m.i ≤ a ∧ a ≤ m.i + x then m.regs (a - m.i) else m.mem a }
  else none

/-- Opcode 0xFx00: `for i in 0..x+1 { regs[i] = mem[self.i + i] }`.
`none` models the panic when an address reaches 4096. -/
def ld_x0 (m : Machine) (x : Nat) : Option Machine :=
  if m.i + x < 4096 then
    some { m with
      regs := fun r =>
        if r ≤ x then m.mem (m.i + r) else m.regs r }
  else none

end Machine

/-- One entry of the output sink: each `print!`/`println!` of the engine
is recorded as an event (the sink itself is an external collaborator). -/
inductive Ev where
  /-- `println!("{:X}", instr.0)` at the end of `fetch` -/
  | trace (w : Nat)
  /-- `print!("{:X} ", regs[i])` in `out` (0xFx01) -/
  | regOut (v : Nat)
  /-- `print!("{:X} ", mem[self.i + i])` in `out_i` (0xFx02) -/
  | memOut (v : Nat)
  /-- `println!("Exiting...")` in `exit` (0xFFFF) -/
  | exiting
  /-- `println!("Unknown instruction: {:X}", instr.0)` in `err` -/
  | unknown (w : Nat)
  deriving DecidableEq

/-- Opcode 0xFx01: prints `regs[0..=x]`; pure in the machine state. -/
def Machine.out (m : Machine) (x : Nat) : List Ev :=
  (List.range (x + 1)).map fun j => Ev.regOut (m.regs j)

/-- Opcode 0xFx02: prints `mem[self.i ..= self.i + x]`; `none` models the panic
when an address reaches 4096. -/
def Machine.out_i (m : Machine) (x : Nat) : Option (List Ev) :=
  if m.i + x < 4096 then
    some ((List.range (x + 1)).map fun j => Ev.memOut (m.mem (m.i + j)))
  else none

/-- Result of one fetch-dispatch cycle: normal continuation, the explicit
halt (`std::process::exit(1)` in `exit`), or a fatal panic. -/
inductive Outcome where
  | ok (m : Machine) (out : List Ev)
  | halt (out : List Ev)
  | fault (msg : String) (out : List Ev)

/-- Embeds `fetch`: fault when the explicit check `pc >= mem.len()` fires (the
source panics "PC out of bounds"), or when the unchecked read of
`mem[pc + 1]` lands out of bounds (the Rust indexing panic); otherwise
combine the two bytes big-endian and advance `pc` by 2. -/
def Machine.fetch (m : Machine) : Except String (Nat × Machine) :=
  if 4096 ≤ m.pc then .error "PC out of bounds"
  else if 4096 ≤ m.pc + 1 then .error "index out of bounds"
  else .ok (Instruction.from_bytes (m.mem m.pc) (m.mem (m.pc + 1)),
    { m with pc := m.pc + 2 })

/-- The dispatch match on `instr.opcode()` (with the nested match on
`instr.n()` for the 0x8 and 0xF families), applied to the already-fetched
word `w` and the post-fetch state `m`. -/
def Machine.exec (m : Machine) (w : Nat) : Outcome :=
  match Instruction.opcode w with
  | 0x0 =>
    match m.ret with
    | some m2 => .ok m2 []
    | none => .fault "stack error" []
  | 0x1 => .ok (m.jmp (Instruction.nnn w)) []
  | 0x2 =>
    match m.call (Instruction.nnn w) with
    | some m2 => .ok m2 []
    | none => .fault "stack error" []
  | 0x3 => .ok (m.eq (Instruction.x w) (Instruction.kk w)) []
  | 0x4 => .ok (m.neq (Instruction.x w) (Instruction.kk w)) []
  | 0x5 => .ok (m.eq_xy (Instruction.x w) (Instruction.y w)) []
  | 0x6 => .ok (m.ld (Instruction.x w) (Instruction.kk w)) []
  | 0x7 => .ok (m.add (Instruction.x w) (Instruction.kk w)) []
  | 0x8 =>
    match Instruction.n w with
    | 0x0 => .ok (m.ld_xy (Instruction.x w) (Instruction.y w)) []
    | 0x1 => .ok (m.or (Instruction.x w) (Instruction.y w)) []
    | 0x2 => .ok (m.and (Instruction.x w) (Instruction.y w)) []
    | 0x3 => .ok (m.xor (Instruction.x w) (Instruction.y w)) []
    | 0x4 => .ok (m.add_xy (Instruction.x w) (Instruction.y w)) []
    | 0x5 => .ok (m.sub_xy (Instruction.x w) (Instruction.y w)) []
    | 0x6 => .ok (m.shr (Instruction.x w)) []
    | 0x7 => .ok (m.subn_xy (Instruction.x w) (Instruction.y w)) []
    | 0xE => .ok (m.shl (Instruction.x w)) []
    | _ => .ok m [Ev.unknown w]
  | 0x9 => .ok (m.neq_xy (Instruction.x w) (Instruction.y w)) []
  | 0xA => .ok (m.ld_i (Instruction.nnn w)) []
  | 0xB => .ok (m.jmp_v0 (Instruction.nnn w)) []
  | 0xC =>
    match m.add_i (Instruction.x w) with
    | some m2 => .ok m2 []
    | none => .fault "index overflow" []
  | 0xD =>
    match m.bcd (Instruction.x w) with
    | some m2 => .ok m2 []
    | none => .fault "memory error" []
  | 0xE =>
    match m.ld_0x (Instruction.x w) with
    | some m2 => .ok m2 []
    | none => .fault "memory error" []
  | 0xF =>
    match Instruction.n w with
    | 0x0 =>
      match m.ld_x0 (Instruction.x w) with
      | some m2 => .ok m2 []
      | none => .fault "memory error" []
    | 0x1 => .ok m (m.out (Instruction.x w))
    | 0x2 =>
      match m.out_i (Instruction.x w) with
      | some evs => .ok m evs
      | none => .fault "memory error" []
    | 0xF => .halt [Ev.exiting]
    | _ => .ok m [Ev.unknown w]
  | _ => .ok m [Ev.unknown w]

/-- Prepends the fetch trace event (`println!` at the end of `fetch`) to
the events of the dispatched handler. -/
def withTrace (w : Nat) : Outcome → Outcome
  | .ok m2 evs => .ok m2 (Ev.trace w :: evs)
  | .halt evs => .halt (Ev.trace w :: evs)
  | .fault e evs => .fault e (Ev.trace w :: evs)

/-- One fetch-decode-dispatch cycle (`dispatch`). -/
def Machine.dispatch (m : Machine) : Outcome :=
  match m.fetch with
  | .error e => .fault e []
  | .ok (w, m1) => withTrace w (m1.exec w)

/-! ### Concrete machines used by witnesses and counterexamples -/

/-- Registers 0 and 1 hold 200 and 100; everything else as `Machine.new`. -/
def mAB : Machine :=
  { Machine.new with regs := fun j => if j = 0 then 200 else if j = 1 then 100 else 0 }

/-- The flag register holds 5; everything else as `Machine.new`. -/
def mFlag5 : Machine :=
  { Machine.new with regs := upd (fun _ => 0) 15 5 }

/-- The flag register holds 1; everything else as `Machine.new`. -/
def mFlag1 : Machine :=
  { Machine.new with regs := upd (fun _ => 0) 15 1 }

/-- Register 3 holds 0xFF; everything else as `Machine.new`. -/
def mFF : Machine :=
  { Machine.new with regs := upd (fun _ => 0) 3 0xFF }

/-- Register 0 holds 205 and the index register holds 0x600. -/
def mBcd : Machine :=
  { Machine.new with regs := upd (fun _ => 0) 0 205, i := 0x600 }

/-! ### C2: register-register add -/

/-- C2 fails as stated when the destination register is the flag register
itself: with `reg[15] = 1`, `reg[0] = 0`, `add-reg` on `x = 15, y = 0`
leaves `reg[15] = 0` (the carry flag), not `(1 + 0) % 256 = 1`. -/
theorem add_xy_aliased_dest_cex :
    ¬ ((mFlag1.add_xy 15 0).regs 15 = (mFlag1.regs 15 + mFlag1.regs 0) % 256 ∧
      (mFlag1.add_xy 15 0).regs 15 =
        if 256 ≤ mFlag1.regs 15 + mFlag1.regs 0 then 1 else 0) := by
  decide

/-- C2 (amended with `x ≠ 15`): for 8-bit `a = reg[x]`, `b = reg[y]`,
`add-reg` stores `(a + b) % 256` in `reg[x]` and sets `reg[15]` to 1 if
`a + b ≥ 256` and to 0 otherwise. -/
theorem add_xy_spec (m : Machine) (x y : Nat) (hx : x ≠ 15) (hx16 : x < 16)
    (hy16 : y < 16) (ha : m.regs x < 256) (hb : m.regs y < 256) :
    (m.add_xy x y).regs x = (m.regs x + m.regs y) % 256 ∧
    (m.add_xy x y).regs 15 = if 256 ≤ m.regs x + m.regs y then 1 else 0 := by
  constructor
  · simp [Machine.add_xy, upd, hx]
  · simp [Machine.add_xy, upd]

/-- Witness for C2 at `x = 0, y = 1` on `mAB` (`200 + 100` wraps to 44,
carry flag set). -/
theorem add_xy_spec_witness :
    (mAB.add_xy 0 1).regs 0 = (mAB.regs 0 + mAB.regs 1) % 256 ∧
    (mAB.add_xy 0 1).regs 15 = if 256 ≤ mAB.regs 0 + mAB.regs 1 then 1 else 0 :=
  add_xy_spec mAB 0 1 (by decide) (by decide) (by decide) (by decide) (by decide)

/-! ### C3: register-register subtract -/

/-- C3 fails as stated when the destination register is the flag register
itself: with `reg[15] = 5`, `reg[0] = 0`, `sub-reg` on `x = 15, y = 0`
leaves `reg[15] = 1` (the no-borrow flag), not `(5 - 0) mod 256 = 5`. -/
theorem sub_xy_aliased_dest_cex :
    ¬ (((mFlag5.sub_xy 15 0).regs 15 : Int) =
        ((mFlag5.regs 15 : Int) - (mFlag5.regs 0 : Int)) % 256 ∧
      (mFlag5.sub_xy 15 0).regs 15 =
        if mFlag5.regs 0 ≤ mFlag5.regs 15 then 1 else 0) := by
  decide

/-- C3 (amended with `x ≠ 15`): for 8-bit `a = reg[x]`, `b = reg[y]`,
`sub-reg` stores `(a - b) mod 256` in `reg[x]` and sets `reg[15]` to 1
exactly when `a ≥ b` (flag 1 means no borrow). -/
theorem sub_xy_spec (m : Machine) (x y : Nat) (hx : x ≠ 15) (hx16 : x < 16)
    (hy16 : y < 16) (ha : m.regs x < 256) (hb : m.regs y < 256) :
    ((m.sub_xy x y).regs x : Int) = ((m.regs x : Int) - (m.regs y : Int)) % 256 ∧
    (m.sub_xy x y).regs 15 = if m.regs y ≤ m.regs x then 1 else 0 := by
  have hres : (m.sub_xy x y).regs x = (m.regs x + 256 - m.regs y) % 256 := by
    show upd (upd m.regs x ((m.regs x + 256 - m.regs y) % 256)) 0xF
      (if m.regs x < m.regs y then 0 else 1) x = _
    rw [upd_other _ _ _ _ hx, upd_same]
  have hflag : (m.sub_xy x y).regs 15 = if m.regs x < m.regs y then 0 else 1 := rfl
  constructor
  · rw [hres]; omega
  · rw [hflag]
    rcases Nat.lt_or_ge (m.regs x) (m.regs y) with h | h
    · rw [if_pos h, if_neg (by omega)]
    · rw [if_neg (by omega), if_pos (by omega)]

/-- Witness for C3 at `x = 0, y = 1` on `mAB` (`200 - 100 = 100`, no
borrow, flag 1). -/
theorem sub_xy_spec_witness :
    ((mAB.sub_xy 0 1).regs 0 : Int) = ((mAB.regs 0 : Int) - (mAB.regs 1 : Int)) % 256 ∧
    (mAB.sub_xy 0 1).regs 15 = if mAB.regs 1 ≤ mAB.regs 0 then 1 else 0 :=
  sub_xy_spec mAB 0 1 (by decide) (by decide) (by decide) (by decide) (by decide)

/-! ### C4: shifts -/

/-- C4 fails as stated when the destination register is the flag register
itself: with `reg[15] = 5`, `shift-right` on `x = 15` first sets
`reg[15] = 5 & 1 = 1` and then shifts that flag, leaving `reg[15] = 0`
instead of the claimed bit `5 & 1 = 1` (and of the claimed result
`5 >> 1 = 2`). -/
theorem shift_aliased_dest_cex :
    ¬ ((mFlag5.shr 15).regs 15 = mFlag5.regs 15 % 2 ∧
      (mFlag5.shr 15).regs 15 = mFlag5.regs 15 / 2 ∧
      (mFlag5.shl 15).regs 15 = mFlag5.regs 15 / 128 ∧
      (mFlag5.shl 15).regs 15 = mFlag5.regs 15 * 2 % 256) := by
  decide

/-- C4 (amended with `x ≠ 15`): for an 8-bit `v = reg[x]`, `shift-right`
sets `reg[15]` to `v & 1` and stores `v >> 1` in `reg[x]`; `shift-left`
sets `reg[15]` to `v >> 7` and stores `(v << 1) % 256` in `reg[x]`; in
both the flag is the bit shifted out. -/
theorem shift_spec (m : Machine) (x : Nat) (hx : x ≠ 15) (hx16 : x < 16)
    (hv : m.regs x < 256) :
    (m.shr x).regs 15 = m.regs x % 2 ∧
    (m.shr x).regs x = m.regs x / 2 ∧
    (m.shl x).regs 15 = m.regs x / 128 ∧
    (m.shl x).regs x = m.regs x * 2 % 256 := by
  refine ⟨?_, ?_, ?_, ?_⟩ <;>
    simp [Machine.shr, Machine.shl, upd, hx, Ne.symm hx]

/-- Witness for C4 at `x = 0` on `mAB` (`v = 200`: right shift gives 100
with flag 0, left shift gives `400 % 256 = 144` with flag 1). -/
theorem shift_spec_witness :
    (mAB.shr 0).regs 15 = mAB.regs 0 % 2 ∧
    (mAB.shr 0).regs 0 = mAB.regs 0 / 2 ∧
    (mAB.shl 0).regs 15 = mAB.regs 0 / 128 ∧
    (mAB.shl 0).regs 0 = mAB.regs 0 * 2 % 256 :=
  shift_spec mAB 0 (by decide) (by decide) (by decide)

/-! ### C9: add-imm frame effect -/

/-- C9: `add-imm` sets `reg[x]` to `(reg[x] + kk) % 256` and leaves every
other register (in particular the flag register `reg[15]`), the memory,
the index register, the stack and `sp` unchanged. -/
theorem add_imm_spec (m : Machine) (x byte : Nat) (hx16 : x < 16)
    (hkk : byte < 256) :
    (m.add x byte).regs x = (m.regs x + byte) % 256 ∧
    (∀ j, j ≠ x → (m.add x byte).regs j = m.regs j) ∧
    (m.add x byte).mem = m.mem ∧
    (m.add x byte).i = m.i ∧
    (m.add x byte).stack = m.stack ∧
    (m.add x byte).sp = m.sp := by
  refine ⟨by simp [Machine.add, upd], fun j hj => ?_, rfl, rfl, rfl, rfl⟩
  simp [Machine.add, upd, hj]

/-- Witness for C9: scenario B of the spec, `reg[3] = 0xFF`, `add-imm 3,
0x01` wraps `reg[3]` to 0 and leaves the flag register untouched. -/
theorem add_imm_spec_witness :
    (mFF.add 3 1).regs 3 = (mFF.regs 3 + 1) % 256 ∧
    (mFF.add 3 1).regs 15 = mFF.regs 15 ∧
    (mFF.add 3 1).mem = mFF.mem ∧
    (mFF.add 3 1).i = mFF.i ∧
    (mFF.add 3 1).stack = mFF.stack ∧
    (mFF.add 3 1).sp = mFF.sp :=
  have h := add_imm_spec mFF 3 1 (by decide) (by decide)
  ⟨h.1, h.2.1 15 (by decide), h.2.2.1, h.2.2.2.1, h.2.2.2.2.1, h.2.2.2.2.2⟩

/-! ### C10: flag-register aliasing in add-reg / sub-reg / subn-reg -/

/-- C10: when `x = 15`, the flag write happens after the result write, so
`add-reg`, `sub-reg` and `subn-reg` leave `reg[15]` holding only the
carry/borrow flag (the arithmetic result is discarded) and every other
register unchanged, for every `y` and every starting register state. -/
theorem flag_dest_discards_result (m : Machine) (y : Nat) :
    (m.add_xy 15 y).regs =
      upd m.regs 15 (if 256 ≤ m.regs 15 + m.regs y then 1 else 0) ∧
    (m.sub_xy 15 y).regs =
      upd m.regs 15 (if m.regs 15 < m.regs y then 0 else 1) ∧
    (m.subn_xy 15 y).regs =
      upd m.regs 15 (if m.regs y < m.regs 15 then 0 else 1) := by
  refine ⟨?_, ?_, ?_⟩ <;>
    simp [Machine.add_xy, Machine.sub_xy, Machine.subn_xy, upd_upd_same]

/-! ### C8: binary-coded decimal -/

/-- C8: for an 8-bit `v = reg[x]` and `index + 2 < 4096`, `bcd` writes
the decimal hundreds digit of `v` to `mem[index]`, the tens digit to
`mem[index + 1]` and the ones digit to `mem[index + 2]`. -/
theorem bcd_spec (m : Machine) (x : Nat) (hx16 : x < 16)
    (hi : m.i + 2 < 4096) (hv : m.regs x < 256) :
    ((m.bcd x).map fun m2 => m2.mem m.i) = some (m.regs x / 100) ∧
    ((m.bcd x).map fun m2 => m2.mem (m.i + 1)) = some (m.regs x / 10 % 10) ∧
    ((m.bcd x).map fun m2 => m2.mem (m.i + 2)) = some (m.regs x % 10) := by
  have hsome : m.bcd x = some { m with
      mem := upd (upd (upd m.mem (m.i + 2) (m.regs x % 10)) (m.i + 1)
        (m.regs x / 10 % 10)) m.i (m.regs x / 10 / 10 % 10) } := by
    unfold Machine.bcd
    rw [dif_pos hi]
  refine ⟨?_, ?_, ?_⟩ <;> rw [hsome] <;> simp only [Option.map_some']
  · rw [upd_same]
    have : m.regs x / 10 / 10 = m.regs x / 100 := by omega
    rw [this, Nat.mod_eq_of_lt (by omega)]
  · rw [upd_other _ _ _ _ (by omega), upd_same]
  · rw [upd_other _ _ _ _ (by omega), upd_other _ _ _ _ (by omega), upd_same]

/-- Witness for C8: scenario D of the spec, `reg[0] = 205`,
`index = 0x600`. -/
theorem bcd_spec_witness :
    ((mBcd.bcd 0).map fun m2 => m2.mem mBcd.i) = some (mBcd.regs 0 / 100) ∧
    ((mBcd.bcd 0).map fun m2 => m2.mem (mBcd.i + 1)) = some (mBcd.regs 0 / 10 % 10) ∧
    ((mBcd.bcd 0).map fun m2 => m2.mem (mBcd.i + 2)) = some (mBcd.regs 0 % 10) :=
  bcd_spec mBcd 0 (by decide) (by decide) (by decide)

/-! ### C6: fetch -/

/-- C6: `fetch` faults exactly when `pc ≥ 4096` or `pc + 1 ≥ 4096`;
otherwise it returns the 16-bit word formed big-endian from the bytes at
`pc` and `pc + 1`, advances `pc` by 2 and leaves everything else
unchanged. -/
theorem fetch_spec (m : Machine) (hb : m.mem (m.pc + 1) < 256) :
    ((∃ e, m.fetch = Except.error e) ↔ 4096 ≤ m.pc ∨ 4096 ≤ m.pc + 1) ∧
    (m.pc + 1 < 4096 →
      m.fetch = Except.ok (256 * m.mem m.pc + m.mem (m.pc + 1),
        { m with pc := m.pc + 2 })) := by
  unfold Machine.fetch
  by_cases h1 : 4096 ≤ m.pc
  · rw [if_pos h1]
    exact ⟨⟨fun _ => Or.inl h1, fun _ => ⟨_, rfl⟩⟩, fun hlt => absurd h1 (by omega)⟩
  · rw [if_neg h1]
    by_cases h2 : 4096 ≤ m.pc + 1
    · rw [if_pos h2]
      exact ⟨⟨fun _ => Or.inr h2, fun _ => ⟨_, rfl⟩⟩, fun hlt => absurd h2 (by omega)⟩
    · rw [if_neg h2]
      refine ⟨⟨?_, ?_⟩, ?_⟩
      · rintro ⟨e, he⟩
        exact absurd he (by simp)
      · rintro (h | h)
        · exact absurd h h1
        · exact absurd h h2
      · intro _
        rw [from_bytes_eq _ _ hb]

/-- Program bytes `0x30 0x05` at `pc = 512` (skip-eq-imm on register 0
against immediate 5). -/
def mSkip : Machine :=
  { Machine.new with
    mem := fun a => if a = 512 then 0x30 else if a = 513 then 0x05 else 0 }

/-- Witness for C6 at the concrete machine `mSkip` (`pc = 512`, program
bytes `0x30 0x05`). -/
theorem fetch_spec_witness :
    ((∃ e, mSkip.fetch = Except.error e) ↔ 4096 ≤ mSkip.pc ∨ 4096 ≤ mSkip.pc + 1) ∧
    (mSkip.pc + 1 < 4096 →
      mSkip.fetch = Except.ok (256 * mSkip.mem mSkip.pc + mSkip.mem (mSkip.pc + 1),
        { mSkip with pc := mSkip.pc + 2 })) :=
  fetch_spec mSkip (by decide)

/-! ### C5: conditional skips -/

/-- The predicate of a conditional-skip instruction, as the claim states
it: equality with the immediate for 0x3/0x4, equality of the two
registers for 0x5/0x9 (negated for 0x4 and 0x9). -/
def skipTaken (m : Machine) (w : Nat) : Bool :=
  match Instruction.opcode w with
  | 0x3 => m.regs (Instruction.x w) == Instruction.kk w
  | 0x4 => !(m.regs (Instruction.x w) == Instruction.kk w)
  | 0x5 => m.regs (Instruction.x w) == m.regs (Instruction.y w)
  | 0x9 => !(m.regs (Instruction.x w) == m.regs (Instruction.y w))
  | _ => false

lemma ok_congr (m1 m2 : Machine) (evs : List Ev) (h : m1 = m2) :
    Outcome.ok m1 evs = Outcome.ok m2 evs := by
  rw [h]

lemma dispatch_ok_of_fetch (m m1 : Machine) (w : Nat)
    (h : m.fetch = Except.ok (w, m1)) :
    m.dispatch = withTrace w (m1.exec w) := by
  unfold Machine.dispatch
  rw [h]

lemma exec_op3 (m : Machine) (w : Nat) (h : Instruction.opcode w = 0x3) :
    m.exec w = .ok (m.eq (Instruction.x w) (Instruction.kk w)) [] := by
  unfold Machine.exec
  rw [h]

lemma exec_op4 (m : Machine) (w : Nat) (h : Instruction.opcode w = 0x4) :
    m.exec w = .ok (m.neq (Instruction.x w) (Instruction.kk w)) [] := by
  unfold Machine.exec
  rw [h]

lemma exec_op5 (m : Machine) (w : Nat) (h : Instruction.opcode w = 0x5) :
    m.exec w = .ok (m.eq_xy (Instruction.x w) (Instruction.y w)) [] := by
  unfold Machine.exec
  rw [h]

lemma exec_op9 (m : Machine) (w : Nat) (h : Instruction.opcode w = 0x9) :
    m.exec w = .ok (m.neq_xy (Instruction.x w) (Instruction.y w)) [] := by
  unfold Machine.exec
  rw [h]

lemma fetch_ok (m : Machine) (hpc : m.pc + 1 < 4096) :
    m.fetch = Except.ok (Instruction.from_bytes (m.mem m.pc) (m.mem (m.pc + 1)),
      { m with pc := m.pc + 2 }) := by
  unfold Machine.fetch
  rw [if_neg (by omega), if_neg (by omega)]

/-- C5: when the fetched instruction is a conditional skip (opcode 0x3,
0x4, 0x5 or 0x9), the fetch-dispatch cycle ends with `pc` advanced by 4
when the predicate holds and by 2 when it does not, changes no other
machine state, and emits only the fetch trace. -/
theorem skip_cycle (m : Machine) (hpc : m.pc + 1 < 4096)
    (hop : Instruction.opcode (Instruction.from_bytes (m.mem m.pc) (m.mem (m.pc + 1))) ∈
      ([0x3, 0x4, 0x5, 0x9] : List Nat)) :
    m.dispatch = Outcome.ok
      { m with pc := m.pc +
        (if skipTaken m (Instruction.from_bytes (m.mem m.pc) (m.mem (m.pc + 1)))
          then 4 else 2) }
      [Ev.trace (Instruction.from_bytes (m.mem m.pc) (m.mem (m.pc + 1)))] := by
  set w := Instruction.from_bytes (m.mem m.pc) (m.mem (m.pc + 1)) with hw
  rw [dispatch_ok_of_fetch m _ w (fetch_ok m hpc)]
  simp only [List.mem_cons, List.mem_singleton, List.not_mem_nil, or_false] at hop
  have hregs : ({ m with pc := m.pc + 2 } : Machine).regs = m.regs := rfl
  rcases hop with h | h | h | h
  · rw [exec_op3 _ _ h]
    have hskip : skipTaken m w = (m.regs (Instruction.x w) == Instruction.kk w) := by
      unfold skipTaken
      rw [h]
    by_cases hp : m.regs (Instruction.x w) = Instruction.kk w
    · rw [hskip, if_pos (beq_iff_eq.2 hp)]
      simp only [withTrace, Machine.eq, hregs]
      rw [if_pos hp]
    · rw [hskip, if_neg (by simp [hp])]
      simp only [withTrace, Machine.eq, hregs]
      rw [if_neg hp]
  · rw [exec_op4 _ _ h]
    have hskip : skipTaken m w = !(m.regs (Instruction.x w) == Instruction.kk w) := by
      unfold skipTaken
      rw [h]
    by_cases hp : m.regs (Instruction.x w) = Instruction.kk w
    · rw [hskip, if_neg (by simp [hp])]
      simp only [withTrace, Machine.neq, hregs]
      rw [if_neg (not_not_intro hp)]
    · rw [hskip, if_pos (by simp [hp])]
      simp only [withTrace, Machine.neq, hregs]
      rw [if_pos hp]
  · rw [exec_op5 _ _ h]
    have hskip : skipTaken m w =
        (m.regs (Instruction.x w) == m.regs (Instruction.y w)) := by
      unfold skipTaken
      rw [h]
    by_cases hp : m.regs (Instruction.x w) = m.regs (Instruction.y w)
    · rw [hskip, if_pos (beq_iff_eq.2 hp)]
      simp only [withTrace, Machine.eq_xy, hregs]
      rw [if_pos hp]
    · rw [hskip, if_neg (by simp [hp])]
      simp only [withTrace, Machine.eq_xy, hregs]
      rw [if_neg hp]
  · rw [exec_op9 _ _ h]
    have hskip : skipTaken m w =
        !(m.regs (Instruction.x w) == m.regs (Instruction.y w)) := by
      unfold skipTaken
      rw [h]
    by_cases hp : m.regs (Instruction.x w) = m.regs (Instruction.y w)
    · rw [hskip, if_neg (by simp [hp])]
      simp only [withTrace, Machine.neq_xy, hregs]
      rw [if_neg (not_not_intro hp)]
    · rw [hskip, if_pos (by simp [hp])]
      simp only [withTrace, Machine.neq_xy, hregs]
      rw [if_pos hp]

/-- Witness for C5 on `mSkip`: the word at `pc = 512` is `0x3005`
(skip-eq-imm on register 0 and immediate 5; register 0 holds 0, so the
skip is not taken). -/
theorem skip_cycle_witness :
    mSkip.dispatch = Outcome.ok
      { mSkip with pc := mSkip.pc +
        (if skipTaken mSkip
            (Instruction.from_bytes (mSkip.mem mSkip.pc) (mSkip.mem (mSkip.pc + 1)))
          then 4 else 2) }
      [Ev.trace (Instruction.from_bytes (mSkip.mem mSkip.pc) (mSkip.mem (mSkip.pc + 1)))] :=
  skip_cycle mSkip (by decide) (by decide)

/-! ### C7: unrecognized opcodes are non-fatal -/

lemma exec_op8_unknown (m : Machine) (w : Nat) (h8 : Instruction.opcode w = 0x8)
    (hn : Instruction.n w ∈ ([8, 9, 10, 11, 12, 13, 15] : List Nat)) :
    m.exec w = .ok m [Ev.unknown w] := by
  unfold Machine.exec
  rw [h8]
  simp only [List.mem_cons, List.mem_singleton, List.not_mem_nil, or_false] at hn
  rcases hn with h | h | h | h | h | h | h <;> rw [h]

lemma exec_opF_unknown (m : Machine) (w : Nat) (hF : Instruction.opcode w = 0xF)
    (hn : Instruction.n w ∈ ([3, 4, 5, 6, 7, 8, 9, 10, 11, 12, 13, 14] : List Nat)) :
    m.exec w = .ok m [Ev.unknown w] := by
  unfold Machine.exec
  rw [hF]
  simp only [List.mem_cons, List.mem_singleton, List.not_mem_nil, or_false] at hn
  rcases hn with h | h | h | h | h | h | h | h | h | h | h | h <;> rw [h]

/-- C7: when the fetched word has opcode 0x8 with an unrecognized
sub-opcode (`n ∉ {0,…,7,0xE}`) or opcode 0xF with an unrecognized
sub-opcode (`n ∉ {0,1,2,0xF}`), the cycle is non-fatal: the outcome is a
normal continuation whose state differs from the initial one only in `pc`
(already advanced by 2), and the diagnostic names the raw word. -/
theorem unknown_opcode_cycle (m : Machine) (hpc : m.pc + 1 < 4096)
    (hop : (Instruction.opcode (Instruction.from_bytes (m.mem m.pc) (m.mem (m.pc + 1))) = 0x8 ∧
        Instruction.n (Instruction.from_bytes (m.mem m.pc) (m.mem (m.pc + 1))) ∉
          ([0, 1, 2, 3, 4, 5, 6, 7, 0xE] : List Nat)) ∨
      (Instruction.opcode (Instruction.from_bytes (m.mem m.pc) (m.mem (m.pc + 1))) = 0xF ∧
        Instruction.n (Instruction.from_bytes (m.mem m.pc) (m.mem (m.pc + 1))) ∉
          ([0, 1, 2, 0xF] : List Nat))) :
    m.dispatch = Outcome.ok { m with pc := m.pc + 2 }
      [Ev.trace (Instruction.from_bytes (m.mem m.pc) (m.mem (m.pc + 1))),
        Ev.unknown (Instruction.from_bytes (m.mem m.pc) (m.mem (m.pc + 1)))] := by
  set w := Instruction.from_bytes (m.mem m.pc) (m.mem (m.pc + 1)) with hw
  rw [dispatch_ok_of_fetch m _ w (fetch_ok m hpc)]
  have h16 : Instruction.n w < 16 := by
    rw [n_eq_mod]
    exact Nat.mod_lt _ (by norm_num)
  rcases hop with ⟨h8, hn⟩ | ⟨hF, hn⟩
  · have hn8 : Instruction.n w ∈ ([8, 9, 10, 11, 12, 13, 15] : List Nat) := by
      simp only [List.mem_cons, List.mem_singleton, List.not_mem_nil, or_false,
        not_or] at hn ⊢
      omega
    rw [exec_op8_unknown _ _ h8 hn8]
    rfl
  · have hnF : Instruction.n w ∈ ([3, 4, 5, 6, 7, 8, 9, 10, 11, 12, 13, 14] : List Nat) := by
      simp only [List.mem_cons, List.mem_singleton, List.not_mem_nil, or_false,
        not_or] at hn ⊢
      omega
    rw [exec_opF_unknown _ _ hF hnF]
    rfl

/-- Program bytes `0x8F 0xFF` at `pc = 512` (opcode 0x8, sub-opcode 0xF:
unrecognized). -/
def mUnk : Machine :=
  { Machine.new with
    mem := fun a => if a = 512 then 0x8F else if a = 513 then 0xFF else 0 }

/-- Witness for C7 on `mUnk`: the word `0x8FFF` has opcode 0x8 and
sub-opcode 0xF, which the 0x8 family does not recognize. -/
theorem unknown_opcode_cycle_witness :
    mUnk.dispatch = Outcome.ok { mUnk with pc := mUnk.pc + 2 }
      [Ev.trace (Instruction.from_bytes (mUnk.mem mUnk.pc) (mUnk.mem (mUnk.pc + 1))),
        Ev.unknown (Instruction.from_bytes (mUnk.mem mUnk.pc) (mUnk.mem (mUnk.pc + 1)))] :=
  unknown_opcode_cycle mUnk (by decide) (by decide)

end Cure8
